import Mathlib

/-!
Verification model of the gitlogue session controller (`src/ui.rs`).

The controller (`UI`) is translated directly from `src/ui.rs`.  Its two
collaborators, the playback engine (`AnimationEngine`, crate module
`animation`) and the commit source (`GitRepository`, crate module `git`),
are not part of the sources under review; they are modelled from the
spec's component contracts (§4.3 and §6) at the granularity the
controller observes, and instrumented so that the controller's calls to
them are visible: the repository carries call counters, and the
controller state carries a trace of the engine operations it issued.
Rendering, terminal setup and the timing of the real event loop are
outside the model; one iteration of `run_loop` is modelled as a pure
step function over the controller state, an optional key event and the
current time in milliseconds.
-/

/-- Modelled from the spec: a diff line's file change (§3 `FileChange`);
the controller only inspects whether a commit's change list is empty, so
only the path is kept. The `git` module is not under `src/`. -/
structure FileChange where
  path : String
deriving Repr, DecidableEq

/-- Modelled from the spec: `CommitMetadata` (§3): an identifier, a short
summary string and an ordered sequence of file changes. The `git` module
is not under `src/`. -/
structure CommitMetadata where
  id : String
  summary : String
  changes : List FileChange
deriving Repr, DecidableEq

/-- Modelled from the spec: the working-tree diff mode (§6 configuration
surface); the controller treats it as an opaque token. -/
inductive DiffMode
  | mk
deriving Repr, DecidableEq

/-- Playback traversal order, from the crate root (`PlaybackOrder`). -/
inductive PlaybackOrder
  | Random
  | Asc
  | Desc
deriving Repr, DecidableEq

/-- Step granularity of the engine's manual stepping (spec §4.3,
`StepMode` in the `animation` module, not under `src/`). -/
inductive StepMode
  | Line
  | Change
deriving Repr, DecidableEq

/-- Modelled from the spec: the commit-source contract of §6. The
repository's internal traversal state is abstracted as the stream of
results its fetch operations will return (`results`), together with the
stream a rewound cursor produces (`full`): `reset_index` rewinds the
internal traversal state, i.e. restores `results` to `full`. A `none`
entry is a fetch that fails (`Exhausted` / `NotFound`); `wt` is the
result of a working-tree-diff query (`none` = the source reports
failure). The counters record how often the controller invoked each kind
of operation. -/
structure GitRepository where
  results : List (Option CommitMetadata)
  full : List (Option CommitMetadata)
  wt : Option CommitMetadata
  fetchCalls : Nat
  resetCalls : Nat
  wtCalls : Nat
deriving Repr, DecidableEq

/-- Modelled from the spec: every fetch operation of the commit source
consumes the head of the result stream and counts the call. -/
def GitRepository.take_next (r : GitRepository) : Option CommitMetadata × GitRepository :=
  match r.results with
  | [] => (none, { r with fetchCalls := r.fetchCalls + 1 })
  | res :: rest => (res, { r with results := rest, fetchCalls := r.fetchCalls + 1 })

/-- Modelled from the spec: `reset_index()` rewinds internal traversal
state for loop-retry (§6). -/
def GitRepository.reset_index (r : GitRepository) : GitRepository :=
  { r with results := r.full, resetCalls := r.resetCalls + 1 }

/-- Modelled from the spec: `get_working_tree_diff(mode)` (§6); does not
touch the traversal cursor. -/
def GitRepository.get_working_tree_diff (r : GitRepository) (_mode : DiffMode) :
    Option CommitMetadata × GitRepository :=
  (r.wt, { r with wtCalls := r.wtCalls + 1 })

/-- Modelled from the spec (§6). -/
def GitRepository.random_commit (r : GitRepository) : Option CommitMetadata × GitRepository :=
  r.take_next

/-- Modelled from the spec (§6). -/
def GitRepository.next_asc_commit (r : GitRepository) : Option CommitMetadata × GitRepository :=
  r.take_next

/-- Modelled from the spec (§6). -/
def GitRepository.next_desc_commit (r : GitRepository) : Option CommitMetadata × GitRepository :=
  r.take_next

/-- Modelled from the spec (§6): range-restricted variant. -/
def GitRepository.random_range_commit (r : GitRepository) : Option CommitMetadata × GitRepository :=
  r.take_next

/-- Modelled from the spec (§6): range-restricted variant. -/
def GitRepository.next_range_commit_asc (r : GitRepository) : Option CommitMetadata × GitRepository :=
  r.take_next

/-- Modelled from the spec (§6): range-restricted variant. -/
def GitRepository.next_range_commit_desc (r : GitRepository) : Option CommitMetadata × GitRepository :=
  r.take_next

/-- Modelled from the spec (§6): fetch by explicit commit spec. -/
def GitRepository.get_commit (r : GitRepository) (_spec : String) :
    Option CommitMetadata × GitRepository :=
  r.take_next

/-- Modelled from the spec: the playback engine (§4.3), abstracted to
the flags the controller observes — the manual-pause flag, the derived
`finished` condition of the body stream, and `current_metadata()`. The
`animation` module is not under `src/`; the cursor/checkpoint internals
are not needed by any controller claim, so `tick`'s internal advancement
is external to this model: the `finished` field holds whatever the last
tick reported. -/
structure AnimationEngine where
  paused : Bool
  finished : Bool
  current_metadata : Option CommitMetadata
deriving Repr, DecidableEq

/-- Modelled from the spec: a fresh engine is unpaused with nothing
loaded. -/
def AnimationEngine.new (_speed_ms : Nat) : AnimationEngine :=
  { paused := false, finished := false, current_metadata := none }

/-- Modelled from the spec (§4.3): set the manual-pause flag. -/
def AnimationEngine.pause (e : AnimationEngine) : AnimationEngine :=
  { e with paused := true }

/-- Modelled from the spec (§4.3): clear the manual-pause flag. -/
def AnimationEngine.resume (e : AnimationEngine) : AnimationEngine :=
  { e with paused := false }

/-- Modelled from the spec (§4.3): `load(metadata)` resets the streams
and clears the paused/finished flags. -/
def AnimationEngine.load_commit (e : AnimationEngine) (m : CommitMetadata) : AnimationEngine :=
  { e with paused := false, finished := false, current_metadata := some m }

/-- Modelled from the spec (§4.3): `is_finished()` is the body stream's
finished condition. -/
def AnimationEngine.is_finished (e : AnimationEngine) : Bool :=
  e.finished

/-- Modelled from the spec (§4.3): `manual_step` only moves the internal
cursor; the controller discards its Bool result, so only the call itself
is observable (it is logged in the controller's trace). -/
def AnimationEngine.manual_step (e : AnimationEngine) (_mode : StepMode) : AnimationEngine :=
  e

/-- Modelled from the spec (§4.3): checkpoint restore only moves the
internal cursor; the controller discards its result. -/
def AnimationEngine.restore_line_checkpoint (e : AnimationEngine) : AnimationEngine :=
  e

/-- Modelled from the spec (§4.3): checkpoint restore only moves the
internal cursor; the controller discards its result. -/
def AnimationEngine.restore_change_checkpoint (e : AnimationEngine) : AnimationEngine :=
  e

/-- One entry of the instrumentation trace: an engine call issued by the
controller. -/
inductive Event
  | enginePauseCall
  | engineResumeCall
  | engineLoadCommit (id : String)
  | engineManualStep (mode : StepMode)
  | engineRestoreLineCheckpoint
  | engineRestoreChangeCheckpoint
deriving Repr, DecidableEq

/-- `UIState` from `src/ui.rs`; `Instant` is modelled as milliseconds. -/
inductive UIState
  | Playing
  | WaitingForNext (resume_at : Nat)
  | Menu
  | KeyBindings
  | About
  | Finished
deriving Repr, DecidableEq

/-- `PlaybackState` from `src/ui.rs`. -/
inductive PlaybackState
  | Playing
  | Paused
deriving Repr, DecidableEq

/-- Key codes the controller dispatches on (`crossterm` `KeyCode`,
restricted to the codes `src/ui.rs` matches). -/
inductive KeyCode
  | Esc
  | Enter
  | Up
  | Down
  | Char (c : Char)
  | Other
deriving Repr, DecidableEq

/-- A key event: a code plus whether the CONTROL modifier is held (the
only modifier `src/ui.rs` inspects). -/
structure KeyEvent where
  code : KeyCode
  ctrl : Bool
deriving Repr, DecidableEq

/-- The `UI` controller state from `src/ui.rs`. Rendering-only fields
(panes, theme) are outside the model; `should_exit` models the shared
termination flag as a plain Boolean; `events` is the instrumentation
trace of engine calls (not a field of the Rust struct). -/
structure UI where
  state : UIState
  speed_ms : Nat
  engine : AnimationEngine
  repo : Option GitRepository
  should_exit : Bool
  order : PlaybackOrder
  loop_playback : Bool
  commit_spec : Option String
  is_range_mode : Bool
  diff_mode : Option DiffMode
  playback_state : PlaybackState
  history : List CommitMetadata
  history_index : Option Nat
  menu_index : Nat
  prev_state : Option UIState
  events : List Event
deriving Repr, DecidableEq

/-- `UI::new` (`src/ui.rs` lines 71-109), restricted to the fields in
the model. -/
def UI.new (speed_ms : Nat) (repo : Option GitRepository) (order : PlaybackOrder)
    (loop_playback : Bool) (commit_spec : Option String) (is_range_mode : Bool) : UI :=
  { state := UIState.Playing
    speed_ms
    engine := AnimationEngine.new speed_ms
    repo
    should_exit := false
    order
    loop_playback
    commit_spec
    is_range_mode
    diff_mode := none
    playback_state := PlaybackState.Playing
    history := []
    history_index := none
    menu_index := 0
    prev_state := none
    events := [] }

/-- `UI::set_diff_mode`. -/
def UI.set_diff_mode (ui : UI) (mode : Option DiffMode) : UI :=
  { ui with diff_mode := mode }

/-- Helper: issue `self.engine.pause()` and log the call. -/
def UI.engine_pause (ui : UI) : UI :=
  { ui with engine := ui.engine.pause, events := ui.events ++ [Event.enginePauseCall] }

/-- Helper: issue `self.engine.resume()` and log the call. -/
def UI.engine_resume (ui : UI) : UI :=
  { ui with engine := ui.engine.resume, events := ui.events ++ [Event.engineResumeCall] }

/-- Helper: issue `self.engine.load_commit(&metadata)` and log the call. -/
def UI.engine_load_commit (ui : UI) (m : CommitMetadata) : UI :=
  { ui with engine := ui.engine.load_commit m,
            events := ui.events ++ [Event.engineLoadCommit m.id] }

/-- Helper: issue `self.engine.manual_step(mode)` and log the call. -/
def UI.engine_manual_step (ui : UI) (mode : StepMode) : UI :=
  { ui with engine := ui.engine.manual_step mode,
            events := ui.events ++ [Event.engineManualStep mode] }

/-- Helper: issue `self.engine.restore_line_checkpoint()` and log the call. -/
def UI.engine_restore_line_checkpoint (ui : UI) : UI :=
  { ui with engine := ui.engine.restore_line_checkpoint,
            events := ui.events ++ [Event.engineRestoreLineCheckpoint] }

/-- Helper: issue `self.engine.restore_change_checkpoint()` and log the call. -/
def UI.engine_restore_change_checkpoint (ui : UI) : UI :=
  { ui with engine := ui.engine.restore_change_checkpoint,
            events := ui.events ++ [Event.engineRestoreChangeCheckpoint] }

/-- `UI::open_menu` (`src/ui.rs` lines 116-121). -/
def UI.open_menu (ui : UI) : UI :=
  ({ ui with prev_state := some ui.state, menu_index := 0, state := UIState.Menu }).engine_pause

/-- `UI::close_menu` (`src/ui.rs` lines 123-132); `prev_state.take()`
leaves `none` behind in both branches. -/
def UI.close_menu (ui : UI) : UI :=
  let ui1 :=
    match ui.prev_state with
    | some prev => { ui with state := prev, prev_state := none }
    | none => { ui with state := UIState.Playing }
  if ui1.playback_state = PlaybackState.Playing then ui1.engine_resume else ui1

/-- `UI::record_history` (`src/ui.rs` lines 168-179): truncate beyond
the current index (or clear when no index), push, point at the last
entry. -/
def UI.record_history (ui : UI) (metadata : CommitMetadata) : UI :=
  let ui1 :=
    match ui.history_index with
    | some index =>
      if index + 1 < ui.history.length then
        { ui with history := ui.history.take (index + 1) }
      else ui
    | none => { ui with history := [] }
  { ui1 with history := ui1.history ++ [metadata],
             history_index := some ((ui1.history ++ [metadata]).length - 1) }

/-- `UI::play_commit` (`src/ui.rs` lines 156-166). -/
def UI.play_commit (ui : UI) (metadata : CommitMetadata) (record : Bool) : UI :=
  let ui1 := if record then ui.record_history metadata else ui
  let ui2 := ui1.engine_load_commit metadata
  let ui3 :=
    match ui2.playback_state with
    | PlaybackState.Playing => ui2.engine_resume
    | PlaybackState.Paused => ui2.engine_pause
  { ui3 with state := UIState.Playing }

/-- `UI::load_commit` (`src/ui.rs` lines 152-154). -/
def UI.load_commit (ui : UI) (metadata : CommitMetadata) : UI :=
  ui.play_commit metadata true

/-- `UI::play_history_commit` (`src/ui.rs` lines 181-189). -/
def UI.play_history_commit (ui : UI) (index : Nat) : UI × Bool :=
  match ui.history[index]? with
  | some metadata => (({ ui with history_index := some index }).play_commit metadata false, true)
  | none => (ui, false)

/-- `UI::toggle_pause` (`src/ui.rs` lines 191-202). -/
def UI.toggle_pause (ui : UI) : UI :=
  match ui.playback_state with
  | PlaybackState.Playing =>
    ({ ui with playback_state := PlaybackState.Paused }).engine_pause
  | PlaybackState.Paused =>
    ({ ui with playback_state := PlaybackState.Playing }).engine_resume

/-- `UI::ensure_manual_pause` (`src/ui.rs` lines 204-209). -/
def UI.ensure_manual_pause (ui : UI) : UI :=
  if ui.playback_state ≠ PlaybackState.Paused then
    ({ ui with playback_state := PlaybackState.Paused }).engine_pause
  else ui

/-- `UI::step_line` (`src/ui.rs` lines 211-214). -/
def UI.step_line (ui : UI) : UI :=
  (ui.ensure_manual_pause).engine_manual_step StepMode.Line

/-- `UI::step_change` (`src/ui.rs` lines 216-219). -/
def UI.step_change (ui : UI) : UI :=
  (ui.ensure_manual_pause).engine_manual_step StepMode.Change

/-- `UI::step_line_back` (`src/ui.rs` lines 221-224). -/
def UI.step_line_back (ui : UI) : UI :=
  (ui.ensure_manual_pause).engine_restore_line_checkpoint

/-- `UI::step_change_back` (`src/ui.rs` lines 226-229). -/
def UI.step_change_back (ui : UI) : UI :=
  (ui.ensure_manual_pause).engine_restore_change_checkpoint

/-- `UI::handle_prev` (`src/ui.rs` lines 231-238). -/
def UI.handle_prev (ui : UI) : UI :=
  match ui.history_index with
  | some index =>
    if 0 < index then (ui.play_history_commit (index - 1)).1 else ui
  | none => ui

/-- `UI::fetch_repo_commit` (`src/ui.rs` lines 303-321). The repository
state is threaded explicitly (the Rust methods mutate the repository
behind a shared reference). -/
def UI.fetch_repo_commit (ui : UI) (repo : GitRepository) : Option CommitMetadata × GitRepository :=
  if ui.is_range_mode then
    match ui.order with
    | PlaybackOrder.Random => repo.random_range_commit
    | PlaybackOrder.Asc => repo.next_range_commit_asc
    | PlaybackOrder.Desc => repo.next_range_commit_desc
  else
    match ui.commit_spec with
    | some spec => repo.get_commit spec
    | none =>
      match ui.order with
      | PlaybackOrder.Random => repo.random_commit
      | PlaybackOrder.Asc => repo.next_asc_commit
      | PlaybackOrder.Desc => repo.next_desc_commit

/-- `UI::advance_to_next_commit` (`src/ui.rs` lines 257-301). -/
def UI.advance_to_next_commit (ui : UI) : UI × Bool :=
  match ui.diff_mode with
  | some diff_mode =>
    match ui.repo with
    | some repo =>
      let res := repo.get_working_tree_diff diff_mode
      let ui1 := { ui with repo := some res.2 }
      match res.1 with
      | some metadata =>
        if !metadata.changes.isEmpty then (ui1.load_commit metadata, true)
        else ({ ui1 with state := UIState.Finished }, false)
      | none => ({ ui1 with state := UIState.Finished }, false)
    | none => ({ ui with state := UIState.Finished }, false)
  | none =>
    match ui.repo with
    | some repo =>
      let res := ui.fetch_repo_commit repo
      match res.1 with
      | some metadata => (({ ui with repo := some res.2 }).load_commit metadata, true)
      | none =>
        if ui.loop_playback then
          let res2 := ui.fetch_repo_commit res.2.reset_index
          match res2.1 with
          | some metadata => (({ ui with repo := some res2.2 }).load_commit metadata, true)
          | none => ({ ui with repo := some res2.2, state := UIState.Finished }, false)
        else ({ ui with repo := some res.2, state := UIState.Finished }, false)
    | none => ({ ui with state := UIState.Finished }, false)

/-- `UI::handle_next` (`src/ui.rs` lines 240-255). When
`play_history_commit` returns `false` the controller state is unchanged,
so the fall-through reads the same state the Rust code does. -/
def UI.handle_next (ui : UI) : UI :=
  match ui.history_index with
  | some index =>
    if index + 1 < ui.history.length then
      let res := ui.play_history_commit (index + 1)
      if res.2 then res.1
      else if res.1.repo.isNone && res.1.diff_mode.isNone then res.1
      else (res.1.advance_to_next_commit).1
    else if ui.repo.isNone && ui.diff_mode.isNone then ui
    else (ui.advance_to_next_commit).1
  | none =>
    if ui.repo.isNone && ui.diff_mode.isNone then ui
    else (ui.advance_to_next_commit).1

/-- Key dispatch of `run_loop` (`src/ui.rs` lines 374-420), by modal
state. In the non-modal arm the Rust match checks, in order: `Esc`,
`Char('q')` (any modifiers), `Char('c')` with CONTROL, `Char(' ')`, then
the step/history characters. -/
def UI.handle_key (ui : UI) (key : KeyEvent) : UI :=
  match ui.state with
  | UIState.Menu =>
    match key.code with
    | KeyCode.Esc => ui.close_menu
    | KeyCode.Up => { ui with menu_index := ui.menu_index - 1 }
    | KeyCode.Down => { ui with menu_index := min (ui.menu_index + 1) 2 }
    | KeyCode.Enter =>
      match ui.menu_index with
      | 0 => { ui with state := UIState.KeyBindings }
      | 1 => { ui with state := UIState.About }
      | _ => { ui with state := UIState.Finished }
    | KeyCode.Char ch =>
      if ch = 'k' then { ui with menu_index := ui.menu_index - 1 }
      else if ch = 'j' then { ui with menu_index := min (ui.menu_index + 1) 2 }
      else ui
    | KeyCode.Other => ui
  | UIState.KeyBindings =>
    match key.code with
    | KeyCode.Esc => { ui with state := UIState.Menu }
    | KeyCode.Enter => { ui with state := UIState.Menu }
    | KeyCode.Char ch => if ch = 'q' then { ui with state := UIState.Menu } else ui
    | _ => ui
  | UIState.About =>
    match key.code with
    | KeyCode.Esc => { ui with state := UIState.Menu }
    | KeyCode.Enter => { ui with state := UIState.Menu }
    | KeyCode.Char ch => if ch = 'q' then { ui with state := UIState.Menu } else ui
    | _ => ui
  | _ =>
    match key.code with
    | KeyCode.Esc => ui.open_menu
    | KeyCode.Char ch =>
      if ch = 'q' then { ui with state := UIState.Finished }
      else if ch = 'c' then
        (if key.ctrl then { ui with state := UIState.Finished } else ui)
      else if ch = ' ' then ui.toggle_pause
      else if ch = 'h' then ui.step_line_back
      else if ch = 'l' then ui.step_line
      else if ch = 'H' then ui.step_change_back
      else if ch = 'L' then ui.step_change
      else if ch = 'p' then ui.handle_prev
      else if ch = 'n' then ui.handle_next
      else ui
    | _ => ui

/-- The state-machine block at the end of a `run_loop` iteration
(`src/ui.rs` lines 423-452). `now` is the current time in milliseconds;
in `WaitingForNext`, a manually paused playback `continue`s (state left
as is), otherwise the controller advances. `Finished` breaks the loop,
which at the level of one iteration leaves the state unchanged. -/
def UI.state_machine_step (ui : UI) (now : Nat) : UI :=
  match ui.state with
  | UIState.Playing =>
    if ui.engine.is_finished then
      if ui.repo.isSome then
        { ui with state := UIState.WaitingForNext (now + ui.speed_ms * 100) }
      else
        { ui with state := UIState.Finished }
    else ui
  | UIState.WaitingForNext resume_at =>
    if resume_at ≤ now then
      if ui.playback_state = PlaybackState.Paused then ui
      else (ui.advance_to_next_commit).1
    else ui
  | _ => ui

/-- One iteration of `run_loop` (`src/ui.rs` lines 349-453): check the
shared termination flag, dispatch at most one key event, then run the
state-machine block. Engine ticking and rendering are external to the
model (the engine's `finished` flag holds whatever the tick reported). -/
def UI.run_iteration (ui : UI) (key : Option KeyEvent) (now : Nat) : UI :=
  let ui1 := if ui.should_exit then { ui with state := UIState.Finished } else ui
  let ui2 :=
    match key with
    | some k => ui1.handle_key k
    | none => ui1
  ui2.state_machine_step now

/-! ## Helper lemmas -/

/-- Every fetch operation counts one fetch call and leaves the reset
counter, the rewind stream and the working-tree answer alone. -/
theorem take_next_spec (r : GitRepository) :
    (r.take_next).2.fetchCalls = r.fetchCalls + 1 ∧
    (r.take_next).2.resetCalls = r.resetCalls ∧
    (r.take_next).2.full = r.full ∧
    (r.take_next).2.wt = r.wt := by
  cases h : r.results <;> simp [GitRepository.take_next, h]

/-- All traversal dispatch targets of `fetch_repo_commit` are the
abstract stream fetch. -/
theorem fetch_repo_commit_eq (ui : UI) (r : GitRepository) :
    ui.fetch_repo_commit r = r.take_next := by
  unfold UI.fetch_repo_commit
  cases hR : ui.is_range_mode <;> cases hs : ui.commit_spec <;> cases ho : ui.order <;>
    simp [hR, hs, ho, GitRepository.random_range_commit, GitRepository.next_range_commit_asc,
      GitRepository.next_range_commit_desc, GitRepository.get_commit, GitRepository.random_commit,
      GitRepository.next_asc_commit, GitRepository.next_desc_commit]

/-- Field effects of `record_history` on fields other than the history:
none. -/
theorem record_history_other_fields (ui : UI) (m : CommitMetadata) :
    (ui.record_history m).repo = ui.repo ∧
    (ui.record_history m).engine = ui.engine ∧
    (ui.record_history m).playback_state = ui.playback_state ∧
    (ui.record_history m).state = ui.state ∧
    (ui.record_history m).diff_mode = ui.diff_mode ∧
    (ui.record_history m).events = ui.events := by
  rcases h : ui.history_index with _ | i
  · simp [UI.record_history, h]
  · by_cases hlt : i + 1 < ui.history.length <;> simp [UI.record_history, h, hlt]

/-- Field effects of `play_commit`. -/
theorem play_commit_fields (ui : UI) (m : CommitMetadata) (record : Bool) :
    (ui.play_commit m record).state = UIState.Playing ∧
    (ui.play_commit m record).repo = ui.repo ∧
    (ui.play_commit m record).engine.current_metadata = some m ∧
    (ui.play_commit m record).playback_state = ui.playback_state ∧
    (ui.play_commit m record).history = (if record then ui.record_history m else ui).history ∧
    (ui.play_commit m record).history_index =
      (if record then ui.record_history m else ui).history_index ∧
    (ui.play_commit m record).diff_mode = ui.diff_mode := by
  cases record with
  | false =>
    cases hps : ui.playback_state <;>
      simp [UI.play_commit, UI.engine_load_commit, UI.engine_resume, UI.engine_pause,
        AnimationEngine.load_commit, AnimationEngine.resume, AnimationEngine.pause, hps]
  | true =>
    rcases h : ui.history_index with _ | i
    · cases hps : ui.playback_state <;>
        simp [UI.play_commit, UI.record_history, h, hps, UI.engine_load_commit, UI.engine_resume,
          UI.engine_pause, AnimationEngine.load_commit, AnimationEngine.resume,
          AnimationEngine.pause]
    · by_cases hlt : i + 1 < ui.history.length <;> cases hps : ui.playback_state <;>
        simp [UI.play_commit, UI.record_history, h, hlt, hps, UI.engine_load_commit,
          UI.engine_resume, UI.engine_pause, AnimationEngine.load_commit, AnimationEngine.resume,
          AnimationEngine.pause]

/-- Field effects of `load_commit`: it records and its history fields
are those of `record_history`. -/
theorem load_commit_fields (ui : UI) (m : CommitMetadata) :
    (ui.load_commit m).state = UIState.Playing ∧
    (ui.load_commit m).repo = ui.repo ∧
    (ui.load_commit m).engine.current_metadata = some m ∧
    (ui.load_commit m).playback_state = ui.playback_state ∧
    (ui.load_commit m).history = (ui.record_history m).history ∧
    (ui.load_commit m).history_index = (ui.record_history m).history_index := by
  have h := play_commit_fields ui m true
  simp only [if_pos] at h
  exact ⟨h.1, h.2.1, h.2.2.1, h.2.2.2.1, by simpa using h.2.2.2.2.1, by simpa using h.2.2.2.2.2.1⟩

/-- `play_history_commit` at a present index: replays without touching
history or the commit source. -/
theorem play_history_commit_found (ui : UI) (j : Nat) (m : CommitMetadata)
    (hm : ui.history[j]? = some m) :
    (ui.play_history_commit j).2 = true ∧
    (ui.play_history_commit j).1.history = ui.history ∧
    (ui.play_history_commit j).1.history_index = some j ∧
    (ui.play_history_commit j).1.repo = ui.repo ∧
    (ui.play_history_commit j).1.engine.current_metadata = some m ∧
    (ui.play_history_commit j).1.playback_state = ui.playback_state ∧
    (ui.play_history_commit j).1.diff_mode = ui.diff_mode := by
  have h := play_commit_fields ({ ui with history_index := some j }) m false
  simp only [if_neg, Bool.false_eq_true, not_false_iff, if_false] at h
  simp only [UI.play_history_commit, hm]
  exact ⟨trivial, h.2.2.2.2.1, h.2.2.2.2.2.1, h.2.1, h.2.2.1, h.2.2.2.1, h.2.2.2.2.2.2⟩

/-- The history invariant of claim C10: a present history cursor is a
valid index into a non-empty history. -/
def histInv (ui : UI) : Prop :=
  ∀ i, ui.history_index = some i → i < ui.history.length ∧ ui.history ≠ []

/-- The history invariant only reads the two history fields. -/
theorem histInv_congr {u v : UI} (hh : u.history = v.history)
    (hi : u.history_index = v.history_index) (h : histInv v) : histInv u := by
  intro i h1
  rw [hi] at h1
  rw [hh]
  exact h i h1

/-- `record_history` establishes the history invariant outright. -/
theorem histInv_record_history (ui : UI) (m : CommitMetadata) :
    histInv (ui.record_history m) := by
  intro i hi
  rcases h : ui.history_index with _ | j
  · simp [UI.record_history, h] at hi ⊢
    omega
  · by_cases hlt : j + 1 < ui.history.length <;>
      simp [UI.record_history, h, hlt] at hi ⊢ <;> omega

/-- `load_commit` establishes the history invariant outright. -/
theorem histInv_load_commit (ui : UI) (m : CommitMetadata) :
    histInv (ui.load_commit m) := by
  have h := load_commit_fields ui m
  exact histInv_congr h.2.2.2.2.1 h.2.2.2.2.2 (histInv_record_history ui m)

/-- `play_history_commit` preserves the history invariant. -/
theorem histInv_play_history_commit (ui : UI) (j : Nat) (h : histInv ui) :
    histInv (ui.play_history_commit j).1 := by
  rcases hm : ui.history[j]? with _ | m
  · simpa [UI.play_history_commit, hm] using h
  · have hj : j < ui.history.length := (List.getElem?_eq_some.mp hm).1
    have hf := play_history_commit_found ui j m hm
    intro i hi
    rw [hf.2.2.1] at hi
    rw [hf.2.1]
    cases hi
    exact ⟨hj, by intro heq; rw [heq] at hj; simp at hj⟩

/-- Whenever `advance_to_next_commit` reports success it has loaded a
commit, leaving the modal state `Playing`. -/
theorem advance_state_of_true (ui : UI) :
    (ui.advance_to_next_commit).2 = true →
    (ui.advance_to_next_commit).1.state = UIState.Playing := by
  unfold UI.advance_to_next_commit
  rcases hdm : ui.diff_mode with _ | dm
  · rcases hrep : ui.repo with _ | r
    · simp [hdm, hrep]
    · rcases hres : (ui.fetch_repo_commit r).1 with _ | m
      · cases hl : ui.loop_playback
        · simp [hdm, hrep, hres, hl]
        · rcases hres2 : (ui.fetch_repo_commit ((ui.fetch_repo_commit r).2).reset_index).1
            with _ | m2
          · simp [hdm, hrep, hres, hl, hres2]
          · intro _
            simp only [hdm, hrep, hres, hl, hres2]
            exact (load_commit_fields _ m2).1
      · intro _
        simp only [hdm, hrep, hres]
        exact (load_commit_fields _ m).1
  · rcases hrep : ui.repo with _ | r
    · simp [hdm, hrep]
    · rcases hwt : (r.get_working_tree_diff dm).1 with _ | m
      · simp [hdm, hrep, hwt]
      · cases hch : m.changes.isEmpty
        · intro _
          simp only [hdm, hrep, hwt, hch, Bool.not_false, if_true]
          exact (load_commit_fields _ m).1
        · simp [hdm, hrep, hwt, hch]

/-- `advance_to_next_commit` preserves the history invariant. -/
theorem histInv_advance (ui : UI) (h : histInv ui) :
    histInv (ui.advance_to_next_commit).1 := by
  unfold UI.advance_to_next_commit
  rcases hdm : ui.diff_mode with _ | dm
  · rcases hrep : ui.repo with _ | r
    · simp only [hdm, hrep]
      exact histInv_congr rfl rfl h
    · rcases hres : (ui.fetch_repo_commit r).1 with _ | m
      · cases hl : ui.loop_playback
        · simp only [hdm, hrep, hres, hl, Bool.false_eq_true, if_false]
          exact histInv_congr rfl rfl h
        · rcases hres2 : (ui.fetch_repo_commit ((ui.fetch_repo_commit r).2).reset_index).1
            with _ | m2
          · simp only [hdm, hrep, hres, hl, if_true, hres2]
            exact histInv_congr rfl rfl h
          · simp only [hdm, hrep, hres, hl, if_true, hres2]
            exact histInv_load_commit _ m2
      · simp only [hdm, hrep, hres]
        exact histInv_load_commit _ m
  · rcases hrep : ui.repo with _ | r
    · simp only [hdm, hrep]
      exact histInv_congr rfl rfl h
    · rcases hwt : (r.get_working_tree_diff dm).1 with _ | m
      · simp only [hdm, hrep, hwt]
        exact histInv_congr rfl rfl h
      · cases hch : m.changes.isEmpty
        · simp only [hdm, hrep, hwt, hch, Bool.not_false, if_true]
          exact histInv_load_commit _ m
        · simp only [hdm, hrep, hwt, hch, Bool.not_true, Bool.false_eq_true, if_false]
          exact histInv_congr rfl rfl h

/-! ## Concrete fixtures used by witnesses and counterexamples -/

/-- A small commit. -/
def mA : CommitMetadata := { id := "a1", summary := "first", changes := [{ path := "a.txt" }] }

/-- Another small commit. -/
def mB : CommitMetadata := { id := "b2", summary := "second", changes := [{ path := "b.txt" }] }

/-- A third small commit. -/
def mC : CommitMetadata := { id := "c3", summary := "third", changes := [{ path := "c.txt" }] }

/-- A repository whose single traversal answer is `mA`. -/
def baseRepo : GitRepository :=
  { results := [some mA], full := [some mA], wt := none,
    fetchCalls := 0, resetCalls := 0, wtCalls := 0 }

/-- A freshly constructed controller with no commit source. -/
def baseUI : UI := UI.new 50 none PlaybackOrder.Asc false none false

/-- The Esc key. -/
def key_esc : KeyEvent := { code := KeyCode.Esc, ctrl := false }

/-- The `q` key. -/
def key_q : KeyEvent := { code := KeyCode.Char 'q', ctrl := false }

/-- Ctrl+C as a key event. -/
def key_ctrl_c : KeyEvent := { code := KeyCode.Char 'c', ctrl := true }

/-! ## Claim theorems -/

/-- Claim C5: recording a newly loaded commit (`load_commit` via
`record_history`) first truncates all entries beyond the current index,
then appends the new commit's metadata and sets the current index to the
last entry; replaying a commit from history navigation
(`play_history_commit`) never invokes this recording. -/
theorem C5_record_history_semantics (ui : UI) (m : CommitMetadata) (i j : Nat) :
    (ui.history_index = some i →
      (ui.record_history m).history = ui.history.take (i + 1) ++ [m]) ∧
    (ui.history_index = none → (ui.record_history m).history = [m]) ∧
    (ui.record_history m).history_index =
      some ((ui.record_history m).history.length - 1) ∧
    (ui.load_commit m).history = (ui.record_history m).history ∧
    (ui.load_commit m).history_index = (ui.record_history m).history_index ∧
    (ui.play_history_commit j).1.history = ui.history := by
  refine ⟨?_, ?_, ?_, (load_commit_fields ui m).2.2.2.2.1,
    (load_commit_fields ui m).2.2.2.2.2, ?_⟩
  · intro hi
    by_cases hlt : i + 1 < ui.history.length
    · simp [UI.record_history, hi, hlt]
    · have hle : ui.history.length ≤ i + 1 := by omega
      simp [UI.record_history, hi, hlt, List.take_of_length_le hle]
  · intro hi
    simp [UI.record_history, hi]
  · rcases h : ui.history_index with _ | k
    · simp [UI.record_history, h]
    · by_cases hlt : k + 1 < ui.history.length <;> simp [UI.record_history, h, hlt]
  · rcases hm : ui.history[j]? with _ | m2
    · simp [UI.play_history_commit, hm]
    · exact (play_history_commit_found ui j m2 hm).2.1

/-- Fixture for the C5 witness: two history entries, cursor on the
first. -/
def uiC5 : UI := { baseUI with history := [mA, mB], history_index := some 0 }

/-- Witness for C5 at a concrete input: recording `mC` truncates the
stale entry `mB` and appends `mC`. -/
theorem C5_witness :
    uiC5.history_index = some 0 ∧
    (uiC5.record_history mC).history = uiC5.history.take 1 ++ [mC] := by
  exact ⟨rfl, (C5_record_history_semantics uiC5 mC 0 0).1 rfl⟩

/-- Claim C10: whenever `history_index` is `some i`, `i` is a valid
index into a non-empty history; this holds at construction and is
preserved by `record_history`, `play_history_commit`, `handle_prev` and
`handle_next`. -/
theorem C10_history_invariant (ui : UI) (m : CommitMetadata) (j : Nat) (speed : Nat)
    (repo0 : Option GitRepository) (ord : PlaybackOrder) (loopB : Bool) (cs : Option String)
    (rangeB : Bool) (h : histInv ui) :
    histInv (UI.new speed repo0 ord loopB cs rangeB) ∧
    histInv (ui.record_history m) ∧
    histInv (ui.play_history_commit j).1 ∧
    histInv ui.handle_prev ∧
    histInv ui.handle_next := by
  refine ⟨?_, histInv_record_history ui m, histInv_play_history_commit ui j h, ?_, ?_⟩
  · intro i hi
    simp [UI.new] at hi
  · unfold UI.handle_prev
    rcases hidx : ui.history_index with _ | k
    · simp only [hidx]
      exact h
    · simp only [hidx]
      by_cases h0 : 0 < k
      · rw [if_pos h0]
        exact histInv_play_history_commit ui (k - 1) h
      · rw [if_neg h0]
        exact h
  · unfold UI.handle_next
    rcases hidx : ui.history_index with _ | k
    · simp only [hidx]
      cases hng : (ui.repo.isNone && ui.diff_mode.isNone)
      · simp only [hng, Bool.false_eq_true, if_false]
        exact histInv_advance ui h
      · simp [hng]
        exact h
    · simp only [hidx]
      by_cases hlen : k + 1 < ui.history.length
      · rw [if_pos hlen]
        rcases hm : ui.history[k + 1]? with _ | m2
        · simp only [UI.play_history_commit, hm]
          cases hng : (ui.repo.isNone && ui.diff_mode.isNone)
          · simp [hng]
            exact histInv_advance ui h
          · simp [hng]
            exact h
        · have hf := play_history_commit_found ui (k + 1) m2 hm
          rw [if_pos hf.1]
          exact histInv_play_history_commit ui (k + 1) h
      · rw [if_neg hlen]
        cases hng : (ui.repo.isNone && ui.diff_mode.isNone)
        · simp [hng]
          exact histInv_advance ui h
        · simp [hng]
          exact h

/-- Fixture for the C10 witness. -/
def uiC10 : UI := { baseUI with history := [mA], history_index := some 0 }

/-- Witness for C10 at a concrete input. -/
theorem C10_witness : histInv uiC10 ∧ histInv uiC10.handle_next := by
  have hInv : histInv uiC10 := by
    intro i hi
    have h0 : (some 0 : Option Nat) = some i := hi
    cases h0
    decide
  exact ⟨hInv,
    (C10_history_invariant uiC10 mA 0 1 none PlaybackOrder.Asc false none false hInv).2.2.2.2⟩

/-- Claim C3: for every history with an entry before (for `p`) or after
(for `n`) the current index, history navigation replays that entry
without invoking any commit-source operation and without modifying the
history sequence, and `p` then `n` (or `n` then `p`) returns to the
commit at the original index. -/
theorem C3_history_nav_roundtrip (ui : UI) (i : Nat)
    (hi : ui.history_index = some i) (hlen : i < ui.history.length) :
    (0 < i →
      ui.handle_prev.repo = ui.repo ∧
      ui.handle_prev.history = ui.history ∧
      ui.handle_prev.history_index = some (i - 1) ∧
      ui.handle_prev.engine.current_metadata = ui.history[i - 1]? ∧
      ui.handle_prev.handle_next.repo = ui.repo ∧
      ui.handle_prev.handle_next.history = ui.history ∧
      ui.handle_prev.handle_next.history_index = some i ∧
      ui.handle_prev.handle_next.engine.current_metadata = ui.history[i]?) ∧
    (i + 1 < ui.history.length →
      ui.handle_next.repo = ui.repo ∧
      ui.handle_next.history = ui.history ∧
      ui.handle_next.history_index = some (i + 1) ∧
      ui.handle_next.engine.current_metadata = ui.history[i + 1]? ∧
      ui.handle_next.handle_prev.repo = ui.repo ∧
      ui.handle_next.handle_prev.history = ui.history ∧
      ui.handle_next.handle_prev.history_index = some i ∧
      ui.handle_next.handle_prev.engine.current_metadata = ui.history[i]?) := by
  constructor
  · intro h0
    have hi1 : i - 1 + 1 = i := by omega
    have hm1 : ui.history[i - 1]? = some ui.history[i - 1] :=
      List.getElem?_eq_getElem (by omega)
    have hp := play_history_commit_found ui (i - 1) _ hm1
    have hprev : ui.handle_prev = (ui.play_history_commit (i - 1)).1 := by
      unfold UI.handle_prev
      simp only [hi]
      rw [if_pos h0]
    have hm2 : (ui.play_history_commit (i - 1)).1.history[i]? = some ui.history[i] := by
      rw [hp.2.1]
      exact List.getElem?_eq_getElem hlen
    have hq := play_history_commit_found (ui.play_history_commit (i - 1)).1 i _ hm2
    have hnext : (ui.play_history_commit (i - 1)).1.handle_next =
        ((ui.play_history_commit (i - 1)).1.play_history_commit i).1 := by
      unfold UI.handle_next
      simp only [hp.2.2.1]
      rw [hp.2.1, hi1, if_pos hlen, if_pos hq.1]
    refine ⟨?_, ?_, ?_, ?_, ?_, ?_, ?_, ?_⟩
    · rw [hprev]; exact hp.2.2.2.1
    · rw [hprev]; exact hp.2.1
    · rw [hprev]; exact hp.2.2.1
    · rw [hprev, hp.2.2.2.2.1]; exact hm1.symm
    · rw [hprev, hnext, hq.2.2.2.1]; exact hp.2.2.2.1
    · rw [hprev, hnext, hq.2.1]; exact hp.2.1
    · rw [hprev, hnext]; exact hq.2.2.1
    · rw [hprev, hnext, hq.2.2.2.2.1]; exact (List.getElem?_eq_getElem hlen).symm
  · intro hlen2
    have hm1 : ui.history[i + 1]? = some ui.history[i + 1] :=
      List.getElem?_eq_getElem hlen2
    have hp := play_history_commit_found ui (i + 1) _ hm1
    have hnext : ui.handle_next = (ui.play_history_commit (i + 1)).1 := by
      unfold UI.handle_next
      simp only [hi]
      rw [if_pos hlen2, if_pos hp.1]
    have hm2 : (ui.play_history_commit (i + 1)).1.history[i]? = some ui.history[i] := by
      rw [hp.2.1]
      exact List.getElem?_eq_getElem hlen
    have hq := play_history_commit_found (ui.play_history_commit (i + 1)).1 i _ hm2
    have hprev : (ui.play_history_commit (i + 1)).1.handle_prev =
        ((ui.play_history_commit (i + 1)).1.play_history_commit i).1 := by
      unfold UI.handle_prev
      simp only [hp.2.2.1]
      rw [if_pos (Nat.succ_pos i), Nat.add_sub_cancel]
    refine ⟨?_, ?_, ?_, ?_, ?_, ?_, ?_, ?_⟩
    · rw [hnext]; exact hp.2.2.2.1
    · rw [hnext]; exact hp.2.1
    · rw [hnext]; exact hp.2.2.1
    · rw [hnext, hp.2.2.2.2.1]; exact hm1.symm
    · rw [hnext, hprev, hq.2.2.2.1]; exact hp.2.2.2.1
    · rw [hnext, hprev, hq.2.1]; exact hp.2.1
    · rw [hnext, hprev]; exact hq.2.2.1
    · rw [hnext, hprev, hq.2.2.2.2.1]; exact (List.getElem?_eq_getElem hlen).symm

/-- Fixture for the C3 witness: two history entries, cursor on the
second. -/
def uiC3 : UI :=
  { baseUI with
    history := [mA, mB], history_index := some 1,
    engine := { baseUI.engine with current_metadata := some mB } }

/-- Witness for C3 at a concrete input: `p` then `n` returns to the
commit at index 1 without touching the commit source or the history. -/
theorem C3_witness :
    uiC3.history_index = some 1 ∧ 1 < uiC3.history.length ∧
    uiC3.handle_prev.handle_next.history_index = some 1 ∧
    uiC3.handle_prev.handle_next.history = uiC3.history ∧
    uiC3.handle_prev.handle_next.repo = uiC3.repo ∧
    uiC3.handle_prev.handle_next.engine.current_metadata = uiC3.history[1]? := by
  have h := (C3_history_nav_roundtrip uiC3 1 rfl (by decide)).1 (by decide)
  exact ⟨rfl, by decide, h.2.2.2.2.2.2.1, h.2.2.2.2.2.1, h.2.2.2.2.1, h.2.2.2.2.2.2.2⟩

/-- Claim C1: with a commit source configured, no working-tree diff mode
and looping enabled, a failed fetch makes `advance_to_next_commit` call
`reset_index` exactly once and retry the fetch exactly once: a
successful retry loads the commit and leaves the state Playing, a failed
retry leaves the state Finished. -/
theorem C1_loop_retry_exactly_once (ui : UI) (r : GitRepository)
    (hdm : ui.diff_mode = none) (hr : ui.repo = some r) (hl : ui.loop_playback = true)
    (hf : (ui.fetch_repo_commit r).1 = none) :
    (ui.advance_to_next_commit).1.repo =
      some (ui.fetch_repo_commit ((ui.fetch_repo_commit r).2).reset_index).2 ∧
    ((ui.fetch_repo_commit ((ui.fetch_repo_commit r).2).reset_index).2).resetCalls =
      r.resetCalls + 1 ∧
    ((ui.fetch_repo_commit ((ui.fetch_repo_commit r).2).reset_index).2).fetchCalls =
      r.fetchCalls + 2 ∧
    (∀ m, (ui.fetch_repo_commit ((ui.fetch_repo_commit r).2).reset_index).1 = some m →
      (ui.advance_to_next_commit).1.state = UIState.Playing ∧
      (ui.advance_to_next_commit).1.engine.current_metadata = some m ∧
      (ui.advance_to_next_commit).2 = true) ∧
    ((ui.fetch_repo_commit ((ui.fetch_repo_commit r).2).reset_index).1 = none →
      (ui.advance_to_next_commit).1.state = UIState.Finished ∧
      (ui.advance_to_next_commit).2 = false) := by
  have hreset : ((ui.fetch_repo_commit ((ui.fetch_repo_commit r).2).reset_index).2).resetCalls =
      r.resetCalls + 1 := by
    rw [fetch_repo_commit_eq, fetch_repo_commit_eq, (take_next_spec _).2.1]
    simp [GitRepository.reset_index, (take_next_spec r).2.1]
  have hfetch : ((ui.fetch_repo_commit ((ui.fetch_repo_commit r).2).reset_index).2).fetchCalls =
      r.fetchCalls + 2 := by
    rw [fetch_repo_commit_eq, fetch_repo_commit_eq, (take_next_spec _).1]
    simp [GitRepository.reset_index, (take_next_spec r).1]
  rcases h2 : (ui.fetch_repo_commit ((ui.fetch_repo_commit r).2).reset_index).1 with _ | m
  · have hadv : ui.advance_to_next_commit =
        ({ ui with repo := some (ui.fetch_repo_commit ((ui.fetch_repo_commit r).2).reset_index).2,
                   state := UIState.Finished }, false) := by
      unfold UI.advance_to_next_commit
      simp only [hdm, hr, hf, hl, if_true, h2]
    refine ⟨?_, hreset, hfetch, ?_, fun _ => ?_⟩
    · rw [hadv]
    · intro m hm
      exact Option.noConfusion hm
    · rw [hadv]
      exact ⟨rfl, rfl⟩
  · have hadv : ui.advance_to_next_commit =
        (({ ui with
            repo := some (ui.fetch_repo_commit ((ui.fetch_repo_commit r).2).reset_index).2
          }).load_commit m, true) := by
      unfold UI.advance_to_next_commit
      simp only [hdm, hr, hf, hl, if_true, h2]
    have hlc := load_commit_fields
      ({ ui with
        repo := some (ui.fetch_repo_commit ((ui.fetch_repo_commit r).2).reset_index).2 }) m
    refine ⟨?_, hreset, hfetch, ?_, ?_⟩
    · rw [hadv]
      exact hlc.2.1
    · intro m2 hm2
      injection hm2 with hmm
      subst hmm
      rw [hadv]
      exact ⟨hlc.1, hlc.2.2.1, rfl⟩
    · intro hm2
      exact Option.noConfusion hm2

/-- Fixture for the C1 witness: the traversal is exhausted (first fetch
fails) but rewinding produces `mA`. -/
def rC1 : GitRepository :=
  { results := [], full := [some mA], wt := none,
    fetchCalls := 0, resetCalls := 0, wtCalls := 0 }

/-- Fixture for the C1 witness. -/
def uiC1 : UI := { baseUI with repo := some rC1, loop_playback := true }

/-- Witness for C1 at a concrete input: one reset, two fetches, retry
succeeds, state stays Playing with the new commit loaded. -/
theorem C1_witness :
    (uiC1.fetch_repo_commit rC1).1 = none ∧
    ((uiC1.fetch_repo_commit ((uiC1.fetch_repo_commit rC1).2).reset_index).2).resetCalls = 1 ∧
    ((uiC1.fetch_repo_commit ((uiC1.fetch_repo_commit rC1).2).reset_index).2).fetchCalls = 2 ∧
    (uiC1.advance_to_next_commit).1.state = UIState.Playing ∧
    (uiC1.advance_to_next_commit).1.engine.current_metadata = some mA := by
  have h := C1_loop_retry_exactly_once uiC1 rC1 rfl rfl rfl (by decide)
  have hs := h.2.2.2.1 mA (by decide)
  exact ⟨by decide, h.2.1, h.2.2.1, hs.1, hs.2.1⟩

/-- Claim C2: in state Playing, when the engine reports finished, the
controller enters WaitingForNext at now plus the base speed times the
fixed multiplier 100 when a commit source is available, and Finished
(never WaitingForNext) when none is. -/
theorem C2_body_finished_transition (ui : UI) (now : Nat)
    (hs : ui.state = UIState.Playing) (hf : ui.engine.is_finished = true) :
    (ui.repo.isSome = true →
      ui.state_machine_step now =
        { ui with state := UIState.WaitingForNext (now + ui.speed_ms * 100) }) ∧
    (ui.repo = none → ui.state_machine_step now = { ui with state := UIState.Finished }) := by
  constructor
  · intro hrep
    unfold UI.state_machine_step
    simp [hs, hf, hrep]
  · intro hrep
    unfold UI.state_machine_step
    simp [hs, hf, hrep]

/-- Fixture for the C2 witness: Playing, engine finished, source
available. -/
def uiC2 : UI :=
  { baseUI with
    repo := some baseRepo,
    engine := { baseUI.engine with finished := true } }

/-- Fixture for the C2 witness: Playing, engine finished, no source. -/
def uiC2b : UI := { baseUI with engine := { baseUI.engine with finished := true } }

/-- Witness for C2 at concrete inputs: both the source-available and the
no-source transition. -/
theorem C2_witness :
    uiC2.state_machine_step 7 =
      { uiC2 with state := UIState.WaitingForNext (7 + uiC2.speed_ms * 100) } ∧
    uiC2b.state_machine_step 7 = { uiC2b with state := UIState.Finished } := by
  exact ⟨(C2_body_finished_transition uiC2 7 rfl rfl).1 rfl,
    (C2_body_finished_transition uiC2b 7 rfl rfl).2 rfl⟩

/-- Claim C9: in WaitingForNext, the next commit is fetched and loaded
only when the resume time is reached and playback is not manually
paused; if paused (or the time is not reached) the state and the whole
controller are unchanged on that iteration. -/
theorem C9_waiting_gate (ui : UI) (t now : Nat) (hs : ui.state = UIState.WaitingForNext t) :
    (now < t → ui.state_machine_step now = ui) ∧
    (t ≤ now → ui.playback_state = PlaybackState.Paused → ui.state_machine_step now = ui) ∧
    (t ≤ now → ui.playback_state = PlaybackState.Playing →
      ui.state_machine_step now = (ui.advance_to_next_commit).1 ∧
      ((ui.advance_to_next_commit).2 = true →
        (ui.state_machine_step now).state = UIState.Playing)) := by
  refine ⟨?_, ?_, ?_⟩
  · intro hlt
    unfold UI.state_machine_step
    simp [hs, Nat.not_le.mpr hlt]
  · intro hle hps
    unfold UI.state_machine_step
    simp [hs, hle, hps]
  · intro hle hps
    have heq : ui.state_machine_step now = (ui.advance_to_next_commit).1 := by
      unfold UI.state_machine_step
      simp [hs, hle, hps]
    refine ⟨heq, fun h2 => ?_⟩
    rw [heq]
    exact advance_state_of_true ui h2

/-- Fixture for the C9 witness: waiting with resume time 10, manually
paused. -/
def uiC9 : UI :=
  { baseUI with
    state := UIState.WaitingForNext 10,
    repo := some baseRepo,
    playback_state := PlaybackState.Paused }

/-- Witness for C9 at a concrete input: the resume time is reached but
playback is paused, so the iteration changes nothing. -/
theorem C9_witness :
    uiC9.state = UIState.WaitingForNext 10 ∧
    uiC9.playback_state = PlaybackState.Paused ∧
    uiC9.state_machine_step 20 = uiC9 := by
  exact ⟨rfl, rfl, (C9_waiting_gate uiC9 10 20 rfl).2.1 (by decide) rfl⟩

/-- Claim C7: from every non-modal state S, Esc saves S as the prior
state and pauses the engine while entering Menu; Esc in Menu restores
exactly S and resumes the engine if and only if PlaybackState is
Playing, so an Esc/Esc round trip returns to the pre-menu modal
state. -/
theorem C7_menu_esc_roundtrip (ui : UI)
    (h1 : ui.state ≠ UIState.Menu) (h2 : ui.state ≠ UIState.KeyBindings)
    (h3 : ui.state ≠ UIState.About) :
    (ui.handle_key key_esc).state = UIState.Menu ∧
    (ui.handle_key key_esc).prev_state = some ui.state ∧
    (ui.handle_key key_esc).engine.paused = true ∧
    (ui.handle_key key_esc).playback_state = ui.playback_state ∧
    ((ui.handle_key key_esc).handle_key key_esc).state = ui.state ∧
    (ui.playback_state = PlaybackState.Playing →
      ((ui.handle_key key_esc).handle_key key_esc).engine.paused = false ∧
      ((ui.handle_key key_esc).handle_key key_esc).events =
        ui.events ++ [Event.enginePauseCall, Event.engineResumeCall]) ∧
    (ui.playback_state = PlaybackState.Paused →
      ((ui.handle_key key_esc).handle_key key_esc).engine.paused = true ∧
      ((ui.handle_key key_esc).handle_key key_esc).events =
        ui.events ++ [Event.enginePauseCall]) := by
  cases hst : ui.state with
  | Menu => exact absurd hst h1
  | KeyBindings => exact absurd hst h2
  | About => exact absurd hst h3
  | Playing =>
    cases hps : ui.playback_state <;>
      simp [UI.handle_key, UI.open_menu, UI.close_menu, UI.engine_pause, UI.engine_resume,
        AnimationEngine.pause, AnimationEngine.resume, key_esc, hst, hps]
  | WaitingForNext t =>
    cases hps : ui.playback_state <;>
      simp [UI.handle_key, UI.open_menu, UI.close_menu, UI.engine_pause, UI.engine_resume,
        AnimationEngine.pause, AnimationEngine.resume, key_esc, hst, hps]
  | Finished =>
    cases hps : ui.playback_state <;>
      simp [UI.handle_key, UI.open_menu, UI.close_menu, UI.engine_pause, UI.engine_resume,
        AnimationEngine.pause, AnimationEngine.resume, key_esc, hst, hps]

/-- Witness for C7 at a concrete input: `baseUI` is Playing (non-modal)
with playback Playing. -/
theorem C7_witness :
    (baseUI.handle_key key_esc).state = UIState.Menu ∧
    (baseUI.handle_key key_esc).engine.paused = true ∧
    ((baseUI.handle_key key_esc).handle_key key_esc).state = baseUI.state ∧
    ((baseUI.handle_key key_esc).handle_key key_esc).engine.paused = false := by
  have h := C7_menu_esc_roundtrip baseUI (by decide) (by decide) (by decide)
  exact ⟨h.1, h.2.2.1, h.2.2.2.2.1, (h.2.2.2.2.2.1 rfl).1⟩

/-- The engine-pause calls a manual stepping input issues before it
delegates: one when playback was not already Paused, none otherwise. -/
def manual_pause_trace (ui : UI) : List Event :=
  if ui.playback_state = PlaybackState.Paused then [] else [Event.enginePauseCall]

/-- Claim C8: every manual stepping input (`h`, `l`, `H`, `L`) sets
PlaybackState to Paused and pauses the engine before delegating to the
engine's manual step or checkpoint-restore operation, for every prior
PlaybackState. The hypothesis states the run-time invariant that the
engine is paused whenever playback is manually Paused. -/
theorem C8_manual_step_forces_pause (ui : UI)
    (hE : ui.playback_state = PlaybackState.Paused → ui.engine.paused = true) :
    (ui.step_line.playback_state = PlaybackState.Paused ∧
      ui.step_line.engine.paused = true ∧
      ui.step_line.events =
        ui.events ++ manual_pause_trace ui ++ [Event.engineManualStep StepMode.Line]) ∧
    (ui.step_change.playback_state = PlaybackState.Paused ∧
      ui.step_change.engine.paused = true ∧
      ui.step_change.events =
        ui.events ++ manual_pause_trace ui ++ [Event.engineManualStep StepMode.Change]) ∧
    (ui.step_line_back.playback_state = PlaybackState.Paused ∧
      ui.step_line_back.engine.paused = true ∧
      ui.step_line_back.events =
        ui.events ++ manual_pause_trace ui ++ [Event.engineRestoreLineCheckpoint]) ∧
    (ui.step_change_back.playback_state = PlaybackState.Paused ∧
      ui.step_change_back.engine.paused = true ∧
      ui.step_change_back.events =
        ui.events ++ manual_pause_trace ui ++ [Event.engineRestoreChangeCheckpoint]) := by
  cases hps : ui.playback_state with
  | Playing =>
    simp [UI.step_line, UI.step_change, UI.step_line_back, UI.step_change_back,
      UI.ensure_manual_pause, UI.engine_manual_step, UI.engine_restore_line_checkpoint,
      UI.engine_restore_change_checkpoint, UI.engine_pause, AnimationEngine.pause,
      AnimationEngine.manual_step, AnimationEngine.restore_line_checkpoint,
      AnimationEngine.restore_change_checkpoint, manual_pause_trace, hps]
  | Paused =>
    simp [UI.step_line, UI.step_change, UI.step_line_back, UI.step_change_back,
      UI.ensure_manual_pause, UI.engine_manual_step, UI.engine_restore_line_checkpoint,
      UI.engine_restore_change_checkpoint, UI.engine_pause, AnimationEngine.pause,
      AnimationEngine.manual_step, AnimationEngine.restore_line_checkpoint,
      AnimationEngine.restore_change_checkpoint, manual_pause_trace, hps, hE hps]

/-- Witness for C8 at a concrete input: `baseUI` is Playing, so each
stepping input pauses first. -/
theorem C8_witness :
    baseUI.playback_state = PlaybackState.Playing ∧
    baseUI.step_line.playback_state = PlaybackState.Paused ∧
    baseUI.step_line.engine.paused = true ∧
    baseUI.step_line.events =
      baseUI.events ++ manual_pause_trace baseUI ++ [Event.engineManualStep StepMode.Line] := by
  have h := C8_manual_step_forces_pause baseUI (by decide)
  exact ⟨rfl, h.1.1, h.1.2.1, h.1.2.2⟩

/-- Fixture for the C4 counterexample: a repository whose working-tree
diff query fails, with looping enabled. -/
def rC4 : GitRepository :=
  { results := [], full := [], wt := none,
    fetchCalls := 0, resetCalls := 0, wtCalls := 0 }

/-- Fixture for the C4 counterexample and witness. -/
def uiC4 : UI :=
  { baseUI with
    repo := some rC4, diff_mode := some DiffMode.mk, loop_playback := true }

/-- Counterexample to claim C4 as stated: with a working-tree diff mode
configured, a failing diff query and looping enabled, the controller
goes directly to Finished with zero `reset_index` calls and zero fetch
retries — no loop-retry recovery is attempted. -/
theorem C4_counterexample_no_loop_retry :
    uiC4.loop_playback = true ∧
    (uiC4.advance_to_next_commit).1.state = UIState.Finished ∧
    (uiC4.advance_to_next_commit).2 = false ∧
    (uiC4.advance_to_next_commit).1.repo = some { rC4 with wtCalls := 1 } ∧
    ({ rC4 with wtCalls := 1 } : GitRepository).resetCalls = 0 ∧
    ({ rC4 with wtCalls := 1 } : GitRepository).fetchCalls = 0 := by
  decide

/-- Claim C4 (amended): when a working-tree diff mode is configured and
the fetched working-tree diff is empty or the source reports failure,
`advance_to_next_commit` transitions directly to Finished, without
consulting `loop_playback` and without any `reset_index` call or fetch
retry. -/
theorem C4_amended_wt_empty_finishes (ui : UI) (dm : DiffMode) (r : GitRepository)
    (hdm : ui.diff_mode = some dm) (hr : ui.repo = some r)
    (hempty : (r.get_working_tree_diff dm).1 = none ∨
      ∃ m, (r.get_working_tree_diff dm).1 = some m ∧ m.changes.isEmpty = true) :
    (ui.advance_to_next_commit).1.state = UIState.Finished ∧
    (ui.advance_to_next_commit).2 = false ∧
    (ui.advance_to_next_commit).1.repo = some (r.get_working_tree_diff dm).2 ∧
    ((r.get_working_tree_diff dm).2).resetCalls = r.resetCalls ∧
    ((r.get_working_tree_diff dm).2).fetchCalls = r.fetchCalls := by
  refine ⟨?_, ?_, ?_, rfl, rfl⟩ <;>
    · unfold UI.advance_to_next_commit
      rcases hempty with h | ⟨m, hm, hch⟩
      · simp [hdm, hr, h]
      · simp [hdm, hr, hm, hch]

/-- Witness for the amended C4 at a concrete input. -/
theorem C4_witness :
    uiC4.diff_mode = some DiffMode.mk ∧
    (rC4.get_working_tree_diff DiffMode.mk).1 = none ∧
    (uiC4.advance_to_next_commit).1.state = UIState.Finished ∧
    ((rC4.get_working_tree_diff DiffMode.mk).2).resetCalls = rC4.resetCalls := by
  have h := C4_amended_wt_empty_finishes uiC4 DiffMode.mk rC4 rfl rfl (Or.inl rfl)
  exact ⟨rfl, rfl, h.1, h.2.2.2.1⟩

/-- Fixture for the C6 counterexample: the controller is in the Menu
modal state. -/
def uiC6menu : UI := { baseUI with state := UIState.Menu }

/-- Counterexample to claim C6 as stated: in the Menu state, pressing
the quit key `q` leaves the state Menu — it does not transition to
Finished, so the quit key does not work from every controller state. -/
theorem C6_counterexample_q_in_menu :
    (uiC6menu.handle_key key_q).state = UIState.Menu ∧
    (uiC6menu.handle_key key_q).state ≠ UIState.Finished := by
  decide

/-- Fixture for the C6 witness: the external termination flag is set. -/
def uiC6sig : UI := { baseUI with state := UIState.Menu, should_exit := true }

/-- Claim C6 (amended): pressing `q` or Ctrl+C transitions the modal
state to Finished from every non-modal state (Playing, WaitingForNext,
Finished) but not from the modal states (Menu, KeyBindings, About);
receiving the external termination signal transitions every state to
Finished on the next iteration. -/
theorem C6_amended_quit_paths (ui : UI) (now : Nat) :
    ((ui.state = UIState.Playing ∨ (∃ t, ui.state = UIState.WaitingForNext t) ∨
        ui.state = UIState.Finished) →
      (ui.handle_key key_q).state = UIState.Finished ∧
      (ui.handle_key key_ctrl_c).state = UIState.Finished) ∧
    ((ui.state = UIState.Menu ∨ ui.state = UIState.KeyBindings ∨ ui.state = UIState.About) →
      (ui.handle_key key_q).state ≠ UIState.Finished ∧
      (ui.handle_key key_ctrl_c).state ≠ UIState.Finished) ∧
    (ui.should_exit = true → (ui.run_iteration none now).state = UIState.Finished) := by
  refine ⟨?_, ?_, ?_⟩
  · rintro (hst | ⟨t, hst⟩ | hst) <;>
      simp [UI.handle_key, key_q, key_ctrl_c, hst]
  · rintro (hst | hst | hst) <;>
      simp [UI.handle_key, key_q, key_ctrl_c, hst]
  · intro hx
    unfold UI.run_iteration UI.state_machine_step
    simp [hx]

/-- Witness for the amended C6 at concrete inputs: `q` quits from
Playing, does not quit from Menu, and the termination signal finishes
from Menu. -/
theorem C6_witness :
    (baseUI.handle_key key_q).state = UIState.Finished ∧
    (uiC6menu.handle_key key_q).state ≠ UIState.Finished ∧
    (uiC6sig.run_iteration none 0).state = UIState.Finished := by
  refine ⟨((C6_amended_quit_paths baseUI 0).1 (Or.inl rfl)).1,
    ((C6_amended_quit_paths uiC6menu 0).2.1 (Or.inl rfl)).1,
    (C6_amended_quit_paths uiC6sig 0).2.2 rfl⟩
